import Mathlib

/-!
# Verification of the vite-ssg rendering orchestration engine

Shallow embedding of the route enumerator (`src/node/utils.ts`), the render
supervisor (`src/node/render.ts`) and the page-renderer worker
(`src/node/renderWorker.ts`), together with proofs of the specified
properties.

JavaScript strings are modelled as `List Char` (`JSString`): JS strings are
sequences of code units, and every string operation the source performs
(single-character `includes`, `startsWith('/')`, one-shot regexp replaces,
concatenation) is a character-sequence operation.
-/

/-- JavaScript strings, modelled as character sequences. -/
abbrev JSString : Type := List Char

/-- Converts a Lean string literal to its `JSString` model. -/
def js (s : String) : JSString := s.data

/-- `paths.add(x)` on a JS `Set` kept in insertion order: appends `x` unless present. -/
def addToSet (l : List JSString) (x : JSString) : List JSString :=
  if x ∈ l then l else l ++ [x]

/-- `Array.from(new Set(l))`: first-occurrence-order deduplication. -/
def jsSetOfList (l : List JSString) : List JSString :=
  l.foldl addToSet []

/-- A vue-router `RouteRecordRaw` as used by `routesToPaths`: a `path`
(`none` models an absent property, `some []` an empty-string path) and a
list of children (`route.children` not being an array behaves exactly like
an empty array in `getPaths`, so both are modelled as `[]`). -/
inductive RouteRecord where
  | mk (path : Option JSString) (children : List RouteRecord)

/-- `prefix.replace(/\/$/g, '')`: removes a single trailing slash. -/
def stripTrailingSlash (s : JSString) : JSString :=
  if s.getLast? = some '/' then s.dropLast else s

/-- The `for (const route of routes)` loop of the inner `getPaths` closure
of `routesToPaths` (src/node/utils.ts, lines 13-29), taking the prefix
already stripped of its trailing slash (the closure strips it on entry). A
truthy (non-empty) `route.path` is resolved against the prefix and added to
the set; children are always visited via the recursive
`getPaths(route.children, path)` call — written here with that call's
entry stripping applied at the call site — where `path` is the computed
absolute path when the node's own path is truthy and the empty string
otherwise (`undefined` is turned into `''` by the default parameter). -/
def getPathsLoop : List RouteRecord → JSString → List JSString → List JSString
  | [], _, paths => paths
  | RouteRecord.mk p cs :: rest, pfx, paths =>
    match p with
    | some s =>
      if s ≠ [] then
        -- `prefix && !route.path.startsWith('/') ? prefix + '/' + path : path`
        let path := if pfx ≠ [] ∧ s.head? ≠ some '/' then pfx ++ '/' :: s else s
        getPathsLoop rest pfx (getPathsLoop cs (stripTrailingSlash path) (addToSet paths path))
      else
        getPathsLoop rest pfx (getPathsLoop cs (stripTrailingSlash []) paths)
    | none => getPathsLoop rest pfx (getPathsLoop cs (stripTrailingSlash []) paths)

/-- The inner `getPaths` closure of `routesToPaths`: strips one trailing
slash from the incoming prefix, then runs the loop over the records. -/
def getPaths (routes : List RouteRecord) (pfx : JSString) (paths : List JSString) : List JSString :=
  getPathsLoop routes (stripTrailingSlash pfx) paths

/-- The recursive call inside `getPathsLoop` is exactly `getPaths` applied
to the children. -/
theorem getPaths_eq_loop (routes : List RouteRecord) (pfx : JSString) (paths : List JSString) :
    getPaths routes pfx paths = getPathsLoop routes (stripTrailingSlash pfx) paths := rfl

/-- `routesToPaths` (src/node/utils.ts, lines 7-33): `['/']` when the route
table is absent, otherwise the insertion-ordered set of flattened paths. -/
def routesToPaths : Option (List RouteRecord) → List JSString
  | none => [js "/"]
  | some routes => getPaths routes [] []

/-- `DefaultIncludedRoutes` (src/node/render.ts, lines 20-23): drops every
path containing a parameter marker `:` or wildcard marker `*`. -/
def DefaultIncludedRoutes (paths : List JSString) : List JSString :=
  paths.filter fun i => !(List.contains i ':') && !(List.contains i '*')

/-- The dispatch route list of `render` (src/node/render.ts, lines 58-63):
flatten, apply the included-routes predicate (modelled with its default
value `DefaultIncludedRoutes`) unless `includeAllRoutes` bypasses it, then
deduplicate via `Array.from(new Set(...))`. -/
def dispatchRoutePaths (includeAllRoutes : Bool) (routes : Option (List RouteRecord)) : List JSString :=
  jsSetOfList
    (if includeAllRoutes then routesToPaths routes
     else DefaultIncludedRoutes (routesToPaths routes))

/-- The `dirStyle` option: `'flat' | 'nested'` (the supervisor defaults it
to `'flat'`; an absent value behaves like `flat` since the worker only
tests `dirStyle === 'nested'`). -/
inductive DirStyle where
  | flat
  | nested
deriving DecidableEq

/-- `route.replace(/^\//g, '')`: removes a single leading slash (the `^`
anchor matches only at the start, so at most one slash is removed). -/
def stripLeadingSlash (s : JSString) : JSString :=
  if s.head? = some '/' then s.drop 1 else s

/-- Collapses every run of consecutive `/` characters into a single `/`,
the normalization `node:path`'s `join` applies to the `/`-joined segments
(resolution of `.`/`..` segments, which no route path in scope contains,
is not modelled). -/
def squashSlashes : JSString → JSString
  | [] => []
  | [c] => [c]
  | a :: b :: rest =>
    if a = '/' ∧ b = '/' then squashSlashes (b :: rest)
    else a :: squashSlashes (b :: rest)

/-- `join(a, b)` from `node:path` on two relative segments: empty segments
are skipped, the rest are joined with `/` and duplicate slashes collapsed. -/
def pathJoin (a b : JSString) : JSString :=
  if a = [] then b
  else if b = [] then a
  else squashSlashes (a ++ '/' :: b)

/-- `relativeRouteFile` (src/node/renderWorker.ts, line 28):
```${(route.endsWith('/') ? `${route}index` : route).replace(/^\//g, '')}.html`` -/
def relativeRouteFile (route : JSString) : JSString :=
  stripLeadingSlash (if route.getLast? = some '/' then route ++ js "index" else route) ++ js ".html"

/-- `filename` (src/node/renderWorker.ts, lines 29-31): `nested` joins the
leading-slash-stripped route with `index.html`; otherwise (`flat`) the
relative route file is used. -/
def filenameFor (dirStyle : DirStyle) (route : JSString) : JSString :=
  if dirStyle = DirStyle.nested then pathJoin (stripLeadingSlash route) (js "index.html")
  else relativeRouteFile route

/-- First-occurrence split: `some (a, b)` with `s = a ++ pat ++ b` at the
leftmost occurrence of `pat`, `none` when `pat` does not occur in `s`. -/
def splitOnce (pat : JSString) : JSString → Option (JSString × JSString)
  | [] => if pat.isPrefixOf ([] : JSString) then some ([], []) else none
  | c :: rest =>
    if pat.isPrefixOf (c :: rest) then some ([], (c :: rest).drop pat.length)
    else (splitOnce pat rest).map fun p => (c :: p.1, p.2)

/-- JavaScript `s.replace(pat, rep)` with a string pattern: replaces only
the first occurrence, returns `s` unchanged when `pat` does not occur
(`$`-escape processing inside the replacement string is not modelled; no
replacement string in scope contains `$`). -/
def replaceFirst (s pat rep : JSString) : JSString :=
  match splitOnce pat s with
  | some (a, b) => a ++ rep ++ b
  | none => s

/-- The mount-point marker the worker replaces in the index template. -/
def mountMarker : JSString := js "<div id=\"app\"></div>"

/-- The opening tag spliced in place of the mount point. -/
def mountReplacementOpen : JSString := js "<div id=\"app\" data-server-rendered=\"true\">"

/-- The inline-script prefix that assigns the serialized initial state. -/
def stateMarker : JSString := js "<script>window.__INITIAL_STATE__="

/-- The `stateScript` of `renderHTML` (src/node/renderWorker.ts, lines
88-90): the serialized state wrapped in an inline script tag when an
initial state exists, the empty string otherwise (the initial state is
modelled as an optional already-serialized string; `none` covers every
falsy `initialState`). -/
def stateScript : Option JSString → JSString
  | some st => js "\n<script>window.__INITIAL_STATE__=" ++ st ++ js "</script>"
  | none => []

/-- `renderHTML` (src/node/renderWorker.ts, lines 87-96): splices the
rendered fragment (and the state script, when present) into the template
in place of the first occurrence of `<div id="app"></div>`. -/
def renderHTML (indexHTML appHTML : JSString) (initialState : Option JSString) : JSString :=
  replaceFirst indexHTML mountMarker
    (mountReplacementOpen ++ appHTML ++ js "</div>" ++ stateScript initialState)

/-- What `createApp(false, route)` produces, as far as the worker consumes
it: the server-rendered fragment (the external `renderToString` call on the
returned app instance is folded into this result, being an external
Renderer capability) and the optional serialized initial state. -/
structure AppResult where
  appHTML : JSString
  initialState : Option JSString

/-- The per-task fields of `WorkerContext` the model tracks: the route, the
directory style and the shared index template. The remaining fields
(`outDir`, `out`, `ssrEntryPath`, `ssrManifest`, `formatting`) configure
filesystem I/O, module loading and external formatting backends, which are
outside the embedding. -/
structure WorkerContext where
  route : JSString
  dirStyle : DirStyle
  indexHTML : JSString

/-- An application factory: may fail (throw) for a route, as a broken
server entry would. -/
abbrev CreateAppFactory := JSString → Except JSString AppResult

/-- The fallible body of the worker task (src/node/renderWorker.ts, lines
26-80, inside the `try`): obtain the app for the route, splice the
rendered fragment into the template, and write the output file — modelled
as returning the written (filename, contents) pair. A factory failure
aborts only this body. -/
def renderPage (createApp : CreateAppFactory) (ctx : WorkerContext) :
    Except JSString (JSString × JSString) := do
  let app ← createApp ctx.route
  let html := renderHTML ctx.indexHTML app.appHTML app.initialState
  pure (filenameFor ctx.dirStyle ctx.route, html)

/-- The observable outcome of one worker task: a written file or a logged
per-route error. -/
inductive TaskResult where
  | written (filename contents : JSString)
  | failed (log : JSString)
deriving DecidableEq

/-- The `console.error` line of the worker's `catch` block (line 83):
`Error on page: <route>` followed by the error's stack. -/
def errorLog (route err : JSString) : JSString :=
  js "[vite-ssg] Error on page: " ++ route ++ js "\n" ++ err

/-- The outcome of one worker task after the `try`/`catch` boundary. -/
def taskOutcome (createApp : CreateAppFactory) (ctx : WorkerContext) : TaskResult :=
  match renderPage createApp ctx with
  | Except.ok (fn, html) => TaskResult.written fn html
  | Except.error e => TaskResult.failed (errorLog ctx.route e)

/-- The worker entry (src/node/renderWorker.ts, lines 24-85): the whole
body is wrapped in `try`/`catch`, so the task itself never rejects — every
failure is converted into a logged outcome. -/
def workerMain (createApp : CreateAppFactory) (ctx : WorkerContext) : Except JSString TaskResult :=
  match renderPage createApp ctx with
  | Except.ok (fn, html) => Except.ok (TaskResult.written fn html)
  | Except.error e => Except.ok (TaskResult.failed (errorLog ctx.route e))

/-- `Promise.all`: resolves with the list of results, or rejects with the
first rejection. -/
def promiseAll {E A : Type} : List (Except E A) → Except E (List A)
  | [] => Except.ok []
  | Except.error e :: _ => Except.error e
  | Except.ok a :: rest => (promiseAll rest).map fun l => a :: l

/-- The dispatch-and-await phase of `render` (src/node/render.ts, lines
102-128): one task per route is submitted to the pool with the shared
context, the supervisor awaits `Promise.all` over them, and afterwards the
user's `onFinished` hook is invoked once — modelled as the pair of the
settled task results and the number of `onFinished` invocations. -/
def renderBatch (createApp : CreateAppFactory) (dirStyle : DirStyle) (indexHTML : JSString)
    (routes : List JSString) : Except JSString (List TaskResult × Nat) := do
  let results ← promiseAll (routes.map fun route =>
    workerMain createApp { route := route, dirStyle := dirStyle, indexHTML := indexHTML })
  pure (results, 1)

/-- `1.1 * 1024 ** 3`, the per-worker memory margin in bytes
(src/node/render.ts, line 95); JS double arithmetic is modelled exactly
over the rationals. -/
def bytesPerWorker : ℚ := 11 / 10 * 1024 ^ 3

/-- `maxThreads` (src/node/render.ts, line 95):
`inspector.url() ? 1 : Math.max(1, Math.floor(Math.min(os.cpus().length / 2, os.freemem() / (1.1 * 1024 ** 3))))`. -/
def maxThreads (inspectorAttached : Bool) (cpuCount freeMem : ℕ) : ℕ :=
  if inspectorAttached then 1
  else max 1 (Nat.floor (min ((cpuCount : ℚ) / 2) ((freeMem : ℚ) / bytesPerWorker)))

/-- A Node.js timer handle as produced by `setTimeout`: its delay in
milliseconds and whether `unref()` has been called on it. -/
structure TimerHandle where
  delayMs : Nat
  unrefd : Bool

/-- `waitInSeconds` (src/node/render.ts, line 131). -/
def waitInSeconds : Nat := 15

/-- The watchdog armed at the end of `render` (src/node/render.ts, lines
132-136): `const timeout = setTimeout(force-exit, waitInSeconds * 1000)`
followed by `timeout.unref()`. -/
def watchdogTimer : TimerHandle :=
  let t : TimerHandle := { delayMs := waitInSeconds * 1000, unrefd := false }
  { t with unrefd := true }

/-- Process status in the discrete event-loop model. -/
inductive ProcStatus where
  | running
  | exited (code : Nat)
deriving DecidableEq

/-- The watchdog callback (src/node/render.ts, lines 132-135): if the
process is still running when the timer fires, `process.exit(0)` is
executed; an already-exited process is unaffected. -/
def watchdogFire : ProcStatus → ProcStatus
  | ProcStatus.running => ProcStatus.exited 0
  | s => s

/-- Node event-loop semantics of `unref` (Node's documented timer
behavior): a timer handle holds the event loop open iff it has not been
unref'd. -/
def keepsProcessAlive (t : TimerHandle) : Bool := !t.unrefd

/-- Process status `now` milliseconds after the watchdog was armed, in a
discrete event-loop model. `stillHeldOpen` says whether something other
than the watchdog (a hung worker or plugin handle) still holds the process
open: if nothing does, the process exits normally at once — the unref'd
watchdog is no hold on the event loop — and otherwise the watchdog fires
once its delay has elapsed. -/
def statusAt (stillHeldOpen : Bool) (now : Nat) : ProcStatus :=
  if stillHeldOpen then
    if watchdogTimer.delayMs ≤ now then watchdogFire ProcStatus.running else ProcStatus.running
  else if keepsProcessAlive watchdogTimer then ProcStatus.running
  else ProcStatus.exited 0

theorem addToSet_nodup {l : List JSString} {x : JSString} (h : l.Nodup) :
    (addToSet l x).Nodup := by
  by_cases hx : x ∈ l
  · simpa [addToSet, hx] using h
  · simp [addToSet, hx, List.nodup_append, h]

theorem mem_addToSet {l : List JSString} {x a : JSString} :
    a ∈ addToSet l x ↔ a ∈ l ∨ a = x := by
  by_cases hx : x ∈ l
  · simp only [addToSet, if_pos hx]
    constructor
    · exact Or.inl
    · rintro (h | rfl)
      · exact h
      · exact hx
  · simp [addToSet, hx]

theorem jsSetFold_nodup (l : List JSString) (acc : List JSString) (h : acc.Nodup) :
    (l.foldl addToSet acc).Nodup := by
  induction l generalizing acc with
  | nil => simpa using h
  | cons x xs ih => exact ih _ (addToSet_nodup h)

theorem jsSetOfList_nodup (l : List JSString) : (jsSetOfList l).Nodup :=
  jsSetFold_nodup l [] List.nodup_nil

theorem mem_jsSetFold {a : JSString} (l acc : List JSString) :
    a ∈ l.foldl addToSet acc ↔ a ∈ acc ∨ a ∈ l := by
  induction l generalizing acc with
  | nil => simp
  | cons x xs ih =>
    rw [List.foldl_cons, ih, mem_addToSet]
    simp only [List.mem_cons]
    tauto

theorem mem_jsSetOfList {a : JSString} (l : List JSString) :
    a ∈ jsSetOfList l ↔ a ∈ l := by
  rw [jsSetOfList, mem_jsSetFold]
  simp

/-- **C3**: for every route tree, the dispatch route list (with the default
included-routes predicate) has no duplicate entries; unless the
`includeAllRoutes` bypass flag is set, no entry contains a parameter marker
`:` or a wildcard marker `*`; and with the bypass set only deduplication is
applied to the flattened paths, not filtering. -/
theorem dispatchRoutePaths_nodup_and_filtered (includeAllRoutes : Bool)
    (routes : Option (List RouteRecord)) :
    (dispatchRoutePaths includeAllRoutes routes).Nodup
    ∧ (includeAllRoutes = false →
        ∀ p ∈ dispatchRoutePaths includeAllRoutes routes,
          List.contains p ':' = false ∧ List.contains p '*' = false)
    ∧ dispatchRoutePaths true routes = jsSetOfList (routesToPaths routes) := by
  refine ⟨jsSetOfList_nodup _, ?_, rfl⟩
  rintro rfl p hp
  rw [dispatchRoutePaths, if_neg (by simp)] at hp
  rw [mem_jsSetOfList, DefaultIncludedRoutes, List.mem_filter] at hp
  have hb := hp.2
  simp only [Bool.and_eq_true, Bool.not_eq_true'] at hb
  exact hb

/-- Witness for **C3** at a concrete route tree containing a duplicate and
a parametric route. -/
theorem dispatchRoutePaths_nodup_and_filtered_witness :
    (dispatchRoutePaths false (some [RouteRecord.mk (some (js "/a")) [],
        RouteRecord.mk (some (js "/b/:id")) [], RouteRecord.mk (some (js "/a")) []])).Nodup
    ∧ (List.contains (js "/a") ':' = false ∧ List.contains (js "/a") '*' = false) := by
  refine ⟨(dispatchRoutePaths_nodup_and_filtered false _).1, ?_⟩
  refine (dispatchRoutePaths_nodup_and_filtered false
    (some [RouteRecord.mk (some (js "/a")) [], RouteRecord.mk (some (js "/b/:id")) [],
      RouteRecord.mk (some (js "/a")) []])).2.1 rfl (js "/a") ?_
  simp [dispatchRoutePaths, routesToPaths, getPaths, getPathsLoop, stripTrailingSlash,
    addToSet, DefaultIncludedRoutes, jsSetOfList, js]

/-- **C10**: with no route table at all, flattening returns exactly `['/']`
and the dispatch list is exactly `['/']` for either value of the bypass
flag, so the batch renders exactly one page. -/
theorem routesToPaths_none_root :
    routesToPaths none = [js "/"] ∧ ∀ b, dispatchRoutePaths b none = [js "/"] := by
  refine ⟨rfl, ?_⟩
  intro b
  cases b <;> rfl

/-- **C4, counterexample**: with a parent `/docs`, an intermediate node
whose `path` is the empty string, and a grandchild `page`, the nearest
non-empty ancestor prefix is `/docs`, yet the flattened set contains the
bare `page` and not `/docs/page` — the empty-path node resets the prefix. -/
theorem childPath_nearest_ancestor_counterexample :
    routesToPaths (some [RouteRecord.mk (some (js "/docs"))
        [RouteRecord.mk (some []) [RouteRecord.mk (some (js "page")) []]]])
      = [js "/docs", js "page"]
    ∧ js "/docs/page" ∉ routesToPaths (some [RouteRecord.mk (some (js "/docs"))
        [RouteRecord.mk (some []) [RouteRecord.mk (some (js "page")) []]]]) := by
  have h : routesToPaths (some [RouteRecord.mk (some (js "/docs"))
      [RouteRecord.mk (some []) [RouteRecord.mk (some (js "page")) []]]])
      = [js "/docs", js "page"] := by
    simp [routesToPaths, getPaths, getPathsLoop, stripTrailingSlash, addToSet, js]
  refine ⟨h, ?_⟩
  rw [h]
  decide

/-- **C4, amended**: a child's absolute path is its immediate parent's
computed path — not the nearest non-empty ancestor prefix, which an
empty-path parent discards — with one trailing slash stripped, joined to a
relative child path with exactly one `/` separator; a child whose own path
starts with `/` overrides the prefix entirely. -/
theorem childPath_concatenation_amended :
    (∀ p c : JSString, p ≠ [] → p.getLast? ≠ some '/' → c ≠ [] → c.head? ≠ some '/' →
      routesToPaths (some [RouteRecord.mk (some p) [RouteRecord.mk (some c) []]])
        = [p, p ++ '/' :: c])
    ∧ (∀ p c : JSString, p ≠ [] → p.getLast? = some '/' → p.dropLast ≠ [] → c ≠ [] →
        c.head? ≠ some '/' →
      routesToPaths (some [RouteRecord.mk (some p) [RouteRecord.mk (some c) []]])
        = [p, p.dropLast ++ '/' :: c])
    ∧ (∀ p a : JSString, p ≠ [] → a ≠ [] → a.head? = some '/' → a ≠ p →
      routesToPaths (some [RouteRecord.mk (some p) [RouteRecord.mk (some a) []]])
        = [p, a]) := by
  refine ⟨?_, ?_, ?_⟩
  · intro p c hp hlast hc hhead
    have hne : ¬(p ++ '/' :: c = p) := by
      intro h
      have := congrArg List.length h
      simp at this
    simp [routesToPaths, getPaths, getPathsLoop, stripTrailingSlash, addToSet,
      hp, hlast, hc, hhead, hne]
  · intro p c hp hlast hdrop hc hhead
    have hne : ¬(p.dropLast ++ '/' :: c = p) := by
      intro h
      have hlen := congrArg List.length h
      rw [List.length_append, List.length_cons, List.length_dropLast] at hlen
      have hp1 : 0 < p.length := List.length_pos.mpr hp
      have hc1 : 0 < c.length := List.length_pos.mpr hc
      omega
    simp [routesToPaths, getPaths, getPathsLoop, stripTrailingSlash, addToSet,
      hp, hlast, hdrop, hc, hhead, hne]
  · intro p a hp ha hhead hne
    simp [routesToPaths, getPaths, getPathsLoop, stripTrailingSlash, addToSet,
      hp, ha, hhead, hne]

/-- Witness for the amended **C4**: parent `/docs` with child `page`
flattens to `/docs/page` with a single separator. -/
theorem childPath_concatenation_amended_witness :
    routesToPaths (some [RouteRecord.mk (some (js "/docs"))
        [RouteRecord.mk (some (js "page")) []]])
      = [js "/docs", js "/docs/page"] := by
  have h := childPath_concatenation_amended.1 (js "/docs") (js "page")
    (by decide) (by decide) (by decide) (by decide)
  exact h

/-- **C5, counterexample**: under parent `/docs`, a node with no `path`
attribute contributes no entry and its child `page` still contributes, but
the child's relative path is NOT resolved against `/docs`, the nearest
ancestor with a path: the result contains `page`, not `/docs/page`. -/
theorem noPathNode_children_counterexample :
    routesToPaths (some [RouteRecord.mk (some (js "/docs"))
        [RouteRecord.mk none [RouteRecord.mk (some (js "page")) []]]])
      = [js "/docs", js "page"]
    ∧ js "/docs/page" ∉ routesToPaths (some [RouteRecord.mk (some (js "/docs"))
        [RouteRecord.mk none [RouteRecord.mk (some (js "page")) []]]]) := by
  have h : routesToPaths (some [RouteRecord.mk (some (js "/docs"))
      [RouteRecord.mk none [RouteRecord.mk (some (js "page")) []]]])
      = [js "/docs", js "page"] := by
    simp [routesToPaths, getPaths, getPathsLoop, stripTrailingSlash, addToSet, js]
  refine ⟨h, ?_⟩
  rw [h]
  decide

/-- **C5, amended**: a node with no `path` attribute contributes no entry
and its children still contribute entries, but the prefix passed to those
children is reset to the empty string — a relative child path is kept
as-is instead of being resolved against the nearest ancestor that has a
path. -/
theorem noPathNode_children_amended :
    (∀ p c : JSString, p ≠ [] → c ≠ [] → c ≠ p →
      routesToPaths (some [RouteRecord.mk (some p)
          [RouteRecord.mk none [RouteRecord.mk (some c) []]]])
        = [p, c])
    ∧ (∀ (cs rest : List RouteRecord) (pfx : JSString) (paths : List JSString),
      getPathsLoop (RouteRecord.mk none cs :: rest) pfx paths
        = getPathsLoop rest pfx (getPathsLoop cs [] paths)) := by
  refine ⟨?_, ?_⟩
  · intro p c hp hc hne
    simp [routesToPaths, getPaths, getPathsLoop, stripTrailingSlash, addToSet, hp, hc, hne]
  · intro cs rest pfx paths
    simp [getPathsLoop, stripTrailingSlash]

/-- Witness for the amended **C5** at parent `/docs` and grandchild `page`. -/
theorem noPathNode_children_amended_witness :
    routesToPaths (some [RouteRecord.mk (some (js "/docs"))
        [RouteRecord.mk none [RouteRecord.mk (some (js "page")) []]]])
      = [js "/docs", js "page"] :=
  noPathNode_children_amended.1 (js "/docs") (js "page") (by decide) (by decide) (by decide)

theorem chain'_cons_noDoubleSlash : ∀ (c : Char) (l : JSString), '/' ∉ l →
    List.Chain' (fun a b => ¬(a = '/' ∧ b = '/')) (c :: l) := by
  intro c l
  induction l generalizing c with
  | nil => intro _; simp
  | cons b rest ih =>
    intro h
    rw [List.chain'_cons]
    constructor
    · rintro ⟨-, rfl⟩
      exact h (List.mem_cons_self _ _)
    · exact ih b fun hm => h (List.mem_cons_of_mem _ hm)

theorem squashSlashes_eq_self {l : JSString}
    (h : List.Chain' (fun a b => ¬(a = '/' ∧ b = '/')) l) : squashSlashes l = l := by
  induction l with
  | nil => rfl
  | cons a rest ih =>
    cases rest with
    | nil => rfl
    | cons b rest2 =>
      rw [List.chain'_cons] at h
      rw [squashSlashes, if_neg h.1]
      exact congrArg (List.cons a) (ih h.2)

/-- **C6**: the output file path is a function of the route and the
directory style. `flat`: `/` maps to `index.html`, `/about` to
`about.html`, and generally `/a/b` — any route `'/' :: p` with `p`
non-empty and no trailing slash — to `a/b.html`. `nested`: `/about` maps
to `about/index.html`, generally `'/' :: p` maps to `p/index.html`, and
the root maps to `index.html` — the `<route>/index.html` file of the
output root, the route directory for `/` being the output directory
itself. -/
theorem filenameFor_dirStyle :
    filenameFor DirStyle.flat (js "/") = js "index.html"
    ∧ filenameFor DirStyle.flat (js "/about") = js "about.html"
    ∧ (∀ p : JSString, p ≠ [] → p.getLast? ≠ some '/' →
        filenameFor DirStyle.flat ('/' :: p) = p ++ js ".html")
    ∧ filenameFor DirStyle.nested (js "/about") = js "about/index.html"
    ∧ filenameFor DirStyle.nested (js "/") = js "index.html"
    ∧ (∀ p : JSString, p ≠ [] → p.getLast? ≠ some '/' →
        List.Chain' (fun a b => ¬(a = '/' ∧ b = '/')) p →
        filenameFor DirStyle.nested ('/' :: p) = p ++ js "/index.html") := by
  refine ⟨by decide, by decide, ?_, by decide, by decide, ?_⟩
  · intro p hp hlast
    have hl : ('/' :: p).getLast? = p.getLast? := by
      cases p with
      | nil => exact absurd rfl hp
      | cons x xs => exact List.getLast?_cons_cons
    rw [filenameFor, if_neg (by decide : ¬(DirStyle.flat = DirStyle.nested)),
      relativeRouteFile, hl, if_neg hlast]
    simp [stripLeadingSlash]
  · intro p hp hlast hchain
    have h1 : stripLeadingSlash ('/' :: p) = p := by simp [stripLeadingSlash]
    rw [filenameFor, if_pos rfl, h1, pathJoin, if_neg hp,
      if_neg (by decide : ¬(js "index.html" = []))]
    have h2 : p ++ js "/index.html" = p ++ '/' :: js "index.html" := by
      exact congrArg (p ++ ·) (by decide)
    rw [h2]
    apply squashSlashes_eq_self
    refine List.chain'_append.mpr ⟨hchain, chain'_cons_noDoubleSlash '/' (js "index.html") (by decide), ?_⟩
    intro x hx y hy
    simp only [List.head?_cons, Option.mem_def, Option.some_inj] at hy
    subst hy
    rintro ⟨hx', -⟩
    subst hx'
    exact hlast hx

/-- Witness for **C6** at the route `/about` through the general clauses. -/
theorem filenameFor_dirStyle_witness :
    filenameFor DirStyle.flat ('/' :: js "about") = js "about" ++ js ".html"
    ∧ filenameFor DirStyle.nested ('/' :: js "about") = js "about" ++ js "/index.html" := by
  constructor
  · exact filenameFor_dirStyle.2.2.1 (js "about") (by decide) (by decide)
  · refine filenameFor_dirStyle.2.2.2.2.2 (js "about") (by decide) (by decide) ?_
    have h : js "about" = 'a' :: js "bout" := by decide
    rw [h]
    exact chain'_cons_noDoubleSlash 'a' (js "bout") (by decide)

/-- The number of positions of `s` at which the pattern `pat` occurs. -/
def countOccs (pat : JSString) : JSString → Nat
  | [] => 0
  | c :: rest => (if pat.isPrefixOf (c :: rest) then 1 else 0) + countOccs pat rest

theorem isPrefixOf_cons_neq {x y : Char} (hxy : x ≠ y) (xs ys : JSString) :
    (x :: xs).isPrefixOf (y :: ys) = false := by
  simp [List.isPrefixOf, hxy]

theorem head?_cons_append (c : Char) (l s : JSString) : ((c :: l) ++ s).head? = some c := rfl

theorem prefix_append_cases {l a s : JSString} (h : l <+: a ++ s) :
    l <+: a ∨ ∃ r, l = a ++ r ∧ r <+: s := by
  rcases h with ⟨t, ht⟩
  rcases List.append_eq_append_iff.mp ht with ⟨a', ha', -⟩ | ⟨c', hc', hs⟩
  · exact Or.inl ⟨a', ha'.symm⟩
  · exact Or.inr ⟨c', hc', ⟨t, hs.symm⟩⟩

theorem countOccs_append_left_absent {h : Char} {pt a s : JSString} (ha : h ∉ a) :
    countOccs (h :: pt) (a ++ s) = countOccs (h :: pt) s := by
  induction a with
  | nil => rfl
  | cons x xs ih =>
    have hx : h ≠ x := fun e => ha (e ▸ List.mem_cons_self _ _)
    rw [List.cons_append, countOccs, isPrefixOf_cons_neq hx]
    simp only [Bool.false_eq_true, if_false, Nat.zero_add]
    exact ih fun hm => ha (List.mem_cons_of_mem _ hm)

theorem countOccs_append_boundary {h : Char} {pt s : JSString} (a : JSString) (hpt : h ∉ pt)
    (hs : s.head? = some h) :
    countOccs (h :: pt) (a ++ s) = countOccs (h :: pt) a + countOccs (h :: pt) s := by
  induction a with
  | nil => simp [countOccs]
  | cons x xs ih =>
    rw [List.cons_append, countOccs, countOccs, ih]
    have hiff : (h :: pt).isPrefixOf (x :: (xs ++ s)) = (h :: pt).isPrefixOf (x :: xs) := by
      cases hp : (h :: pt).isPrefixOf (x :: xs) with
      | true =>
        have hpref : (h :: pt) <+: (x :: xs) := List.isPrefixOf_iff_prefix.mp hp
        have : (h :: pt) <+: (x :: xs) ++ s := hpref.trans (List.prefix_append _ _)
        rw [← List.cons_append]
        exact List.isPrefixOf_iff_prefix.mpr this
      | false =>
        rw [← List.cons_append]
        cases hq : (h :: pt).isPrefixOf ((x :: xs) ++ s) with
        | false => rfl
        | true =>
          exfalso
          rcases prefix_append_cases (List.isPrefixOf_iff_prefix.mp hq) with hc | ⟨r, hr, hrs⟩
          · rw [List.isPrefixOf_iff_prefix.mpr hc] at hp
            exact Bool.true_eq_false.mp hp
          · cases r with
            | nil =>
              rw [List.append_nil] at hr
              rw [hr] at hp
              rw [List.isPrefixOf_iff_prefix.mpr (List.prefix_refl _)] at hp
              exact Bool.true_eq_false.mp hp
            | cons r0 rtl =>
              rcases hrs with ⟨t, hts⟩
              have hr0 : h = r0 := by
                rw [← hts] at hs
                simpa using hs.symm
              have hpt' : pt = xs ++ r0 :: rtl := by
                have := hr
                rw [List.cons_append] at this
                exact (List.cons.injEq _ _ _ _).mp this |>.2
              subst hr0
              apply hpt
              rw [hpt']
              exact List.mem_append_right _ (List.mem_cons_self _ _)
    rw [hiff]
    omega

theorem countOccs_self_append {h : Char} {pt s : JSString} (hpt : h ∉ pt) :
    countOccs (h :: pt) ((h :: pt) ++ s) = 1 + countOccs (h :: pt) s := by
  have hpre : (h :: pt).isPrefixOf ((h :: pt) ++ s) = true :=
    List.isPrefixOf_iff_prefix.mpr (List.prefix_append _ _)
  rw [List.cons_append, countOccs, ← List.cons_append, hpre]
  simp only [eq_self_iff_true, if_true]
  rw [countOccs_append_left_absent hpt]

theorem countOccs_headed_append {h : Char} {pt atail s : JSString} (ha : h ∉ atail)
    (hnp : pt.isPrefixOf (atail ++ s) = false) :
    countOccs (h :: pt) ((h :: atail) ++ s) = countOccs (h :: pt) s := by
  rw [List.cons_append, countOccs]
  have : (h :: pt).isPrefixOf (h :: (atail ++ s)) = false := by
    simp [List.isPrefixOf, hnp]
  rw [this]
  simp only [Bool.false_eq_true, if_false, Nat.zero_add]
  exact countOccs_append_left_absent ha

/-- `stateMarker` without its leading `<`. -/
def smTail : JSString := js "script>window.__INITIAL_STATE__="

theorem stateMarker_cons : stateMarker = '<' :: smTail := by decide

theorem smTail_no_lt : '<' ∉ smTail := by decide

theorem smTail_cons : smTail = 's' :: js "cript>window.__INITIAL_STATE__=" := by decide

theorem countOccs_scriptClose_append (post : JSString) :
    countOccs ('<' :: smTail) (('<' :: js "/script>") ++ post)
      = countOccs ('<' :: smTail) post := by
  refine countOccs_headed_append (by decide) ?_
  have h : (js "/script>" : JSString) = '/' :: js "script>" := by decide
  rw [smTail_cons, h, List.cons_append]
  exact isPrefixOf_cons_neq (by decide) _ _

theorem countOccs_divClose_group (s : JSString) :
    countOccs ('<' :: smTail) (('<' :: js "/div>") ++ (js "\n" ++ s))
      = countOccs ('<' :: smTail) s := by
  have hre : ('<' :: js "/div>") ++ (js "\n" ++ s) = ('<' :: (js "/div>" ++ js "\n")) ++ s := by
    simp
  rw [hre]
  refine countOccs_headed_append (by decide) ?_
  have h : (js "/div>" : JSString) ++ js "\n" = '/' :: js "div>\n" := by decide
  rw [smTail_cons, h, List.cons_append]
  exact isPrefixOf_cons_neq (by decide) _ _

theorem countOccs_divClose_append (post : JSString) :
    countOccs ('<' :: smTail) (('<' :: js "/div>") ++ post)
      = countOccs ('<' :: smTail) post := by
  refine countOccs_headed_append (by decide) ?_
  have h : (js "/div>" : JSString) = '/' :: js "div>" := by decide
  rw [smTail_cons, h, List.cons_append]
  exact isPrefixOf_cons_neq (by decide) _ _

theorem countOccs_mro_append (s : JSString) :
    countOccs ('<' :: smTail) (mountReplacementOpen ++ s) = countOccs ('<' :: smTail) s := by
  have hmro : mountReplacementOpen
      = '<' :: js "div id=\"app\" data-server-rendered=\"true\">" := by decide
  rw [hmro]
  refine countOccs_headed_append (by decide) ?_
  have h : (js "div id=\"app\" data-server-rendered=\"true\">" : JSString)
      = 'd' :: js "iv id=\"app\" data-server-rendered=\"true\">" := by decide
  rw [smTail_cons, h, List.cons_append]
  exact isPrefixOf_cons_neq (by decide) _ _

theorem countOccs_state_core (pre app st post : JSString)
    (h1 : countOccs stateMarker pre = 0) (h2 : countOccs stateMarker app = 0)
    (h3 : countOccs stateMarker st = 0) (h4 : countOccs stateMarker post = 0) :
    countOccs stateMarker
      (pre ++ (mountReplacementOpen ++ (app ++ (js "</div>"
        ++ (js "\n" ++ (stateMarker ++ (st ++ (js "</script>" ++ post)))))))) = 1 := by
  rw [stateMarker_cons] at h1 h2 h3 h4 ⊢
  have hdiv : (js "</div>" : JSString) = '<' :: js "/div>" := by decide
  have hscl : (js "</script>" : JSString) = '<' :: js "/script>" := by decide
  rw [hdiv, hscl]
  have e5 : countOccs ('<' :: smTail) (st ++ (('<' :: js "/script>") ++ post)) = 0 := by
    rw [countOccs_append_boundary st smTail_no_lt (head?_cons_append _ _ _),
      countOccs_scriptClose_append, h3, h4]
  have e4 : countOccs ('<' :: smTail)
      (('<' :: smTail) ++ (st ++ (('<' :: js "/script>") ++ post))) = 1 := by
    rw [countOccs_self_append smTail_no_lt, e5]
  have e3 : countOccs ('<' :: smTail)
      (('<' :: js "/div>") ++ (js "\n" ++ (('<' :: smTail)
        ++ (st ++ (('<' :: js "/script>") ++ post))))) = 1 := by
    rw [countOccs_divClose_group, e4]
  have e2 : countOccs ('<' :: smTail)
      (app ++ (('<' :: js "/div>") ++ (js "\n" ++ (('<' :: smTail)
        ++ (st ++ (('<' :: js "/script>") ++ post)))))) = 1 := by
    rw [countOccs_append_boundary app smTail_no_lt (head?_cons_append _ _ _), h2, e3]
  have e1 : countOccs ('<' :: smTail)
      (mountReplacementOpen ++ (app ++ (('<' :: js "/div>") ++ (js "\n" ++ (('<' :: smTail)
        ++ (st ++ (('<' :: js "/script>") ++ post))))))) = 1 := by
    rw [countOccs_mro_append, e2]
  have hhead : (mountReplacementOpen ++ (app ++ (('<' :: js "/div>") ++ (js "\n"
      ++ (('<' :: smTail) ++ (st ++ (('<' :: js "/script>") ++ post))))))).head?
      = some '<' := by
    have hmro : mountReplacementOpen
        = '<' :: js "div id=\"app\" data-server-rendered=\"true\">" := by decide
    rw [hmro]
    exact head?_cons_append _ _ _
  rw [countOccs_append_boundary pre smTail_no_lt hhead, h1, e1]

theorem countOccs_nostate_core (pre app post : JSString)
    (h1 : countOccs stateMarker pre = 0) (h2 : countOccs stateMarker app = 0)
    (h4 : countOccs stateMarker post = 0) :
    countOccs stateMarker
      (pre ++ (mountReplacementOpen ++ (app ++ (js "</div>" ++ post)))) = 0 := by
  rw [stateMarker_cons] at h1 h2 h4 ⊢
  have hdiv : (js "</div>" : JSString) = '<' :: js "/div>" := by decide
  rw [hdiv]
  have e3 : countOccs ('<' :: smTail) (('<' :: js "/div>") ++ post) = 0 := by
    rw [countOccs_divClose_append, h4]
  have e2 : countOccs ('<' :: smTail) (app ++ (('<' :: js "/div>") ++ post)) = 0 := by
    rw [countOccs_append_boundary app smTail_no_lt (head?_cons_append _ _ _), h2, e3]
  have e1 : countOccs ('<' :: smTail)
      (mountReplacementOpen ++ (app ++ (('<' :: js "/div>") ++ post))) = 0 := by
    rw [countOccs_mro_append, e2]
  have hhead : (mountReplacementOpen ++ (app ++ (('<' :: js "/div>") ++ post))).head?
      = some '<' := by
    have hmro : mountReplacementOpen
        = '<' :: js "div id=\"app\" data-server-rendered=\"true\">" := by decide
    rw [hmro]
    exact head?_cons_append _ _ _
  rw [countOccs_append_boundary pre smTail_no_lt hhead, h1, e1]

theorem splitOnce_some_eq {pat s a b : JSString} (h : splitOnce pat s = some (a, b)) :
    s = a ++ pat ++ b := by
  induction s generalizing a b with
  | nil =>
    rw [splitOnce] at h
    by_cases hp : pat.isPrefixOf ([] : JSString)
    · have hpat : pat = [] := List.prefix_nil.mp (List.isPrefixOf_iff_prefix.mp hp)
      rw [if_pos hp] at h
      obtain ⟨rfl, rfl⟩ := Prod.mk.injEq _ _ _ _ ▸ Option.some_inj.mp h
      simp [hpat]
    · rw [if_neg hp] at h
      exact absurd h (by simp)
  | cons c rest ih =>
    rw [splitOnce] at h
    by_cases hp : pat.isPrefixOf (c :: rest)
    · rw [if_pos hp] at h
      obtain ⟨t, ht⟩ := List.isPrefixOf_iff_prefix.mp hp
      obtain ⟨rfl, rfl⟩ := Prod.mk.injEq _ _ _ _ ▸ Option.some_inj.mp h
      rw [← ht, List.drop_left]
      simp
    · rw [if_neg hp] at h
      cases hsp : splitOnce pat rest with
      | none => rw [hsp] at h; exact absurd h (by simp)
      | some q =>
        rw [hsp] at h
        obtain ⟨a', b'⟩ := q
        simp only [Option.map_some', Option.some_inj, Prod.mk.injEq] at h
        obtain ⟨rfl, rfl⟩ := h
        have := ih hsp
        rw [List.cons_append]
        exact congrArg (List.cons c) this

theorem splitOnce_none_not_contains {pat s : JSString} (h : splitOnce pat s = none) :
    ∀ a b : JSString, s ≠ a ++ pat ++ b := by
  induction s with
  | nil =>
    intro a b heq
    rw [splitOnce] at h
    have ha : a = [] := by
      cases a with
      | nil => rfl
      | cons x xs => exact absurd heq.symm (by simp)
    subst ha
    have hb : b = [] := by
      cases b with
      | nil => rfl
      | cons x xs =>
        rw [List.nil_append] at heq
        exact absurd heq.symm (by simp)
    subst hb
    rw [List.nil_append, List.append_nil] at heq
    rw [← heq] at h
    simp [List.isPrefixOf] at h
  | cons c rest ih =>
    intro a b heq
    rw [splitOnce] at h
    by_cases hp : pat.isPrefixOf (c :: rest)
    · rw [if_pos hp] at h
      exact absurd h (by simp)
    · rw [if_neg hp] at h
      cases a with
      | nil =>
        rw [List.nil_append] at heq
        exact hp (List.isPrefixOf_iff_prefix.mpr ⟨b, heq.symm⟩)
      | cons a0 atl =>
        rw [List.cons_append, List.cons_append] at heq
        have htl : rest = atl ++ pat ++ b := ((List.cons.injEq _ _ _ _).mp heq).2
        have hnone : splitOnce pat rest = none := by
          cases hsp : splitOnce pat rest with
          | none => rfl
          | some q => rw [hsp] at h; exact absurd h (by simp)
        exact ih hnone atl b htl

/-- **C7**: when the factory produces an initial state, the rendered
document is the template with the mount point replaced by the
server-rendered div followed immediately by a single inline script
assigning `window.__INITIAL_STATE__`; the state-assignment marker occurs
exactly once in the output. When no initial state is produced, no such
marker occurs in the output. The hypotheses say that the template splits
at the (first) mount point and that none of the surrounding fragments
already contains the state-assignment marker. -/
theorem renderHTML_initial_state_script (indexHTML appHTML st pre post : JSString)
    (hsplit : splitOnce mountMarker indexHTML = some (pre, post))
    (h1 : countOccs stateMarker pre = 0) (h2 : countOccs stateMarker appHTML = 0)
    (h3 : countOccs stateMarker st = 0) (h4 : countOccs stateMarker post = 0) :
    indexHTML = pre ++ mountMarker ++ post
    ∧ renderHTML indexHTML appHTML (some st)
        = pre ++ (mountReplacementOpen ++ (appHTML ++ (js "</div>"
            ++ (js "\n" ++ (stateMarker ++ (st ++ (js "</script>" ++ post)))))))
    ∧ countOccs stateMarker (renderHTML indexHTML appHTML (some st)) = 1
    ∧ countOccs stateMarker (renderHTML indexHTML appHTML none) = 0 := by
  have hnl : js "\n<script>window.__INITIAL_STATE__=" = js "\n" ++ stateMarker := by decide
  have hsome : renderHTML indexHTML appHTML (some st)
      = pre ++ (mountReplacementOpen ++ (appHTML ++ (js "</div>"
          ++ (js "\n" ++ (stateMarker ++ (st ++ (js "</script>" ++ post))))))) := by
    rw [renderHTML, replaceFirst, hsplit, stateScript, hnl]
    simp [List.append_assoc]
  have hnone : renderHTML indexHTML appHTML none
      = pre ++ (mountReplacementOpen ++ (appHTML ++ (js "</div>" ++ post))) := by
    rw [renderHTML, replaceFirst, hsplit, stateScript]
    simp [List.append_assoc]
  refine ⟨splitOnce_some_eq hsplit, hsome, ?_, ?_⟩
  · rw [hsome]
    exact countOccs_state_core pre appHTML st post h1 h2 h3 h4
  · rw [hnone]
    exact countOccs_nostate_core pre appHTML post h1 h2 h4

/-- Witness for **C7** on a small concrete template, fragment and state. -/
theorem renderHTML_initial_state_script_witness :
    countOccs stateMarker
      (renderHTML (js "<html><div id=\"app\"></div></html>") (js "<p>ok</p>") (some (js "42"))) = 1
    ∧ countOccs stateMarker
      (renderHTML (js "<html><div id=\"app\"></div></html>") (js "<p>ok</p>") none) = 0 := by
  have h := renderHTML_initial_state_script (js "<html><div id=\"app\"></div></html>")
    (js "<p>ok</p>") (js "42") (js "<html>") (js "</html>")
    (by decide) (by decide) (by decide) (by decide) (by decide)
  exact ⟨h.2.2.1, h.2.2.2⟩

/-- **C9**: when the index template does not contain the literal mount
point `<div id="app"></div>` anywhere, the splice returns the template
unchanged — the rendered fragment and the initial-state script are
silently dropped from the written page. -/
theorem renderHTML_missing_mount_point (indexHTML appHTML : JSString)
    (initialState : Option JSString)
    (h : ∀ a b : JSString, indexHTML ≠ a ++ mountMarker ++ b) :
    renderHTML indexHTML appHTML initialState = indexHTML := by
  rw [renderHTML, replaceFirst]
  cases hsp : splitOnce mountMarker indexHTML with
  | none => rfl
  | some q =>
    obtain ⟨a, b⟩ := q
    exact absurd (splitOnce_some_eq hsp) (h a b)

/-- Witness for **C9**: a template with no mount point passes through
untouched, fragment and state notwithstanding. -/
theorem renderHTML_missing_mount_point_witness :
    renderHTML (js "<html><main></main></html>") (js "<p>ok</p>") (some (js "42"))
      = js "<html><main></main></html>" :=
  renderHTML_missing_mount_point _ _ _
    (splitOnce_none_not_contains (by decide))

theorem promiseAll_map_ok {E A B : Type} (f : B → A) (l : List B) :
    promiseAll (l.map fun b => (Except.ok (f b) : Except E A)) = Except.ok (l.map f) := by
  induction l with
  | nil => rfl
  | cons x xs ih =>
    rw [List.map_cons, List.map_cons, promiseAll, ih]
    rfl

theorem workerMain_eq_ok (createApp : CreateAppFactory) (ctx : WorkerContext) :
    workerMain createApp ctx = Except.ok (taskOutcome createApp ctx) := by
  cases h : renderPage createApp ctx with
  | ok p =>
    obtain ⟨fn, html⟩ := p
    simp [workerMain, taskOutcome, h]
  | error e => simp [workerMain, taskOutcome, h]

/-- **C1**: if the worker task for one route fails (its application factory
throws) while another route's task succeeds, the failure is caught inside
the worker and turned into a logged outcome, the batch as a whole settles
successfully with one outcome per route — the succeeding route's file among
them — and the `onFinished` hook is invoked exactly once after all tasks
settle. -/
theorem renderBatch_isolates_failures (createApp : CreateAppFactory) (dirStyle : DirStyle)
    (indexHTML : JSString) (routes : List JSString) (rb rok e fn html : JSString)
    (hmemb : rb ∈ routes) (hmemok : rok ∈ routes)
    (hfail : renderPage createApp
      { route := rb, dirStyle := dirStyle, indexHTML := indexHTML } = Except.error e)
    (hok : renderPage createApp
      { route := rok, dirStyle := dirStyle, indexHTML := indexHTML } = Except.ok (fn, html)) :
    renderBatch createApp dirStyle indexHTML routes
      = Except.ok (routes.map fun r =>
          taskOutcome createApp { route := r, dirStyle := dirStyle, indexHTML := indexHTML }, 1)
    ∧ TaskResult.failed (errorLog rb e) ∈ (routes.map fun r =>
        taskOutcome createApp { route := r, dirStyle := dirStyle, indexHTML := indexHTML })
    ∧ TaskResult.written fn html ∈ (routes.map fun r =>
        taskOutcome createApp { route := r, dirStyle := dirStyle, indexHTML := indexHTML }) := by
  refine ⟨?_, ?_, ?_⟩
  · rw [renderBatch]
    have hmap : (routes.map fun route =>
        workerMain createApp { route := route, dirStyle := dirStyle, indexHTML := indexHTML })
        = routes.map fun route =>
          Except.ok (taskOutcome createApp
            { route := route, dirStyle := dirStyle, indexHTML := indexHTML }) := by
      simp [workerMain_eq_ok]
    rw [hmap, promiseAll_map_ok]
    rfl
  · refine List.mem_map.mpr ⟨rb, hmemb, ?_⟩
    simp [taskOutcome, hfail]
  · refine List.mem_map.mpr ⟨rok, hmemok, ?_⟩
    simp [taskOutcome, hok]

/-- The application factory of the **C1** witness: throws on `/broken`,
renders `<p>ok</p>` elsewhere. -/
def demoFactory : CreateAppFactory := fun r =>
  if r = js "/broken" then Except.error (js "boom")
  else Except.ok { appHTML := js "<p>ok</p>", initialState := none }

/-- Witness for **C1**: in a batch over `/broken` and `/ok`, the batch
settles with both outcomes, `/ok`'s file is written, `/broken`'s failure is
logged, and the completion hook runs exactly once. -/
theorem renderBatch_isolates_failures_witness :
    renderBatch demoFactory DirStyle.flat (js "<div id=\"app\"></div>")
        [js "/broken", js "/ok"]
      = Except.ok ([js "/broken", js "/ok"].map fun r =>
          taskOutcome demoFactory
            { route := r, dirStyle := DirStyle.flat, indexHTML := js "<div id=\"app\"></div>" }, 1)
    ∧ TaskResult.failed (errorLog (js "/broken") (js "boom"))
        ∈ ([js "/broken", js "/ok"].map fun r =>
          taskOutcome demoFactory
            { route := r, dirStyle := DirStyle.flat, indexHTML := js "<div id=\"app\"></div>" })
    ∧ TaskResult.written (js "ok.html")
        (js "<div id=\"app\" data-server-rendered=\"true\"><p>ok</p></div>")
        ∈ ([js "/broken", js "/ok"].map fun r =>
          taskOutcome demoFactory
            { route := r, dirStyle := DirStyle.flat, indexHTML := js "<div id=\"app\"></div>" }) :=
  renderBatch_isolates_failures demoFactory DirStyle.flat (js "<div id=\"app\"></div>")
    [js "/broken", js "/ok"] (js "/broken") (js "/ok") (js "boom") (js "ok.html")
    (js "<div id=\"app\" data-server-rendered=\"true\"><p>ok</p></div>")
    (by decide) (by decide) rfl rfl

/-- **C2**: the watchdog armed after the batch has a fixed 15-second
(15000 ms) delay; it is unref'd, so it never keeps the process alive — a
process nothing else holds open exits normally at every instant; and if
something does hold the process open, the watchdog force-exits it with
code 0 once the delay has elapsed. -/
theorem watchdog_guarantees_termination :
    watchdogTimer.delayMs = 15 * 1000
    ∧ keepsProcessAlive watchdogTimer = false
    ∧ (∀ now : Nat, watchdogTimer.delayMs ≤ now → statusAt true now = ProcStatus.exited 0)
    ∧ (∀ now : Nat, statusAt false now = ProcStatus.exited 0) := by
  refine ⟨rfl, rfl, ?_, ?_⟩
  · intro now h
    rw [statusAt, if_pos rfl, if_pos h]
    rfl
  · intro now
    rfl

/-- Witness for **C2** at the instants 15000 ms and 0 ms. -/
theorem watchdog_guarantees_termination_witness :
    statusAt true 15000 = ProcStatus.exited 0 ∧ statusAt false 0 = ProcStatus.exited 0 :=
  ⟨watchdog_guarantees_termination.2.2.1 15000 (by decide),
    watchdog_guarantees_termination.2.2.2 0⟩

/-- **C8, counterexample**: on a single-CPU host with plenty of free memory
(here 1 TiB), the pool size is 1 — the `max(1, ...)` lower bound — which
exceeds half the CPU count (`1/2`), so the pool is not bounded above by the
CPU-derived term. -/
theorem maxThreads_not_bounded_counterexample :
    maxThreads false 1 (2 ^ 40) = 1
    ∧ ¬((maxThreads false 1 (2 ^ 40) : ℚ) ≤ ((1 : ℕ) : ℚ) / 2) := by
  have hle : ((1 : ℕ) : ℚ) / 2 ≤ ((2 ^ 40 : ℕ) : ℚ) / bytesPerWorker := by
    rw [bytesPerWorker]
    norm_num
  have hmin : min (((1 : ℕ) : ℚ) / 2) (((2 ^ 40 : ℕ) : ℚ) / bytesPerWorker)
      = ((1 : ℕ) : ℚ) / 2 := min_eq_left hle
  have hfloor : Nat.floor (((1 : ℕ) : ℚ) / 2) = 0 := by
    rw [Nat.floor_eq_zero]
    norm_num
  have hval : maxThreads false 1 (2 ^ 40) = 1 := by
    rw [maxThreads, if_neg (by simp)]
    push_cast at hmin hfloor ⊢
    rw [hmin, hfloor]
    simp
  refine ⟨hval, ?_⟩
  rw [hval]
  norm_num

/-- **C8, amended**: the pool size is exactly 1 whenever a debugging
interface is attached, regardless of CPU count; otherwise it equals
`max(1, floor(min(cpuCount / 2, freeMemory / (1.1 GiB))))`, so it is always
at least 1, and it is bounded above by both half the CPU count and the
1.1-GiB-per-worker memory margin whenever that floored minimum is at least
1 (when the floored minimum is 0, the lower bound of 1 wins and may exceed
both terms). -/
theorem maxThreads_amended (cpuCount freeMem : ℕ) :
    maxThreads true cpuCount freeMem = 1
    ∧ 1 ≤ maxThreads false cpuCount freeMem
    ∧ maxThreads false cpuCount freeMem
        = max 1 (Nat.floor (min ((cpuCount : ℚ) / 2) ((freeMem : ℚ) / bytesPerWorker)))
    ∧ (1 ≤ Nat.floor (min ((cpuCount : ℚ) / 2) ((freeMem : ℚ) / bytesPerWorker)) →
        (maxThreads false cpuCount freeMem : ℚ) ≤ (cpuCount : ℚ) / 2
        ∧ (maxThreads false cpuCount freeMem : ℚ) ≤ (freeMem : ℚ) / bytesPerWorker) := by
  have hunfold : maxThreads false cpuCount freeMem
      = max 1 (Nat.floor (min ((cpuCount : ℚ) / 2) ((freeMem : ℚ) / bytesPerWorker))) := by
    rw [maxThreads, if_neg (by simp)]
  refine ⟨rfl, ?_, hunfold, ?_⟩
  · rw [hunfold]
    exact le_max_left _ _
  · intro h
    have hnonneg : (0 : ℚ) ≤ min ((cpuCount : ℚ) / 2) ((freeMem : ℚ) / bytesPerWorker) := by
      refine le_min (by positivity) ?_
      have hbp : (0 : ℚ) < bytesPerWorker := by
        rw [bytesPerWorker]
        norm_num
      positivity
    have heq : maxThreads false cpuCount freeMem
        = Nat.floor (min ((cpuCount : ℚ) / 2) ((freeMem : ℚ) / bytesPerWorker)) := by
      rw [hunfold]
      exact max_eq_right h
    have hle : ((maxThreads false cpuCount freeMem : ℕ) : ℚ)
        ≤ min ((cpuCount : ℚ) / 2) ((freeMem : ℚ) / bytesPerWorker) := by
      rw [heq]
      exact Nat.floor_le hnonneg
    exact ⟨hle.trans (min_le_left _ _), hle.trans (min_le_right _ _)⟩

/-- Witness for the amended **C8** on an 8-CPU, 8-GiB host: the floored
minimum is 4 ≥ 1, and the pool of 4 respects both bounds. -/
theorem maxThreads_amended_witness :
    maxThreads true 8 (2 ^ 33) = 1
    ∧ 1 ≤ maxThreads false 8 (2 ^ 33)
    ∧ ((maxThreads false 8 (2 ^ 33) : ℚ) ≤ ((8 : ℕ) : ℚ) / 2
        ∧ (maxThreads false 8 (2 ^ 33) : ℚ) ≤ (((2 : ℕ) ^ 33 : ℕ) : ℚ) / bytesPerWorker) := by
  have h1 : (1 : ℚ) ≤ min (((8 : ℕ) : ℚ) / 2) ((((2 : ℕ) ^ 33 : ℕ) : ℚ) / bytesPerWorker) := by
    rw [bytesPerWorker, le_min_iff]
    norm_num
  have h := maxThreads_amended 8 (2 ^ 33)
  exact ⟨h.1, h.2.1, h.2.2.2 (Nat.le_floor (by push_cast at h1 ⊢; exact h1))⟩
